import Mathlib

/-!
Verification development for `src/comutl/AXP_Execute_Box.c` (DECaxp).

The file shallowly embeds the worker loop `AXP_Execution_Box` and its static
pipeline-compatibility table `pipeCond`.  Stateful code is modelled by explicit
state passing: a `CPU` record carries the counted queue, the queue entries, the
instruction (ROB) slots, the floating-point-enable bit and the lifecycle state.
Every externally visible action of the loop (mutex operations, condition-variable
waits, queue mutations, ROB writes, dispatcher and return-callback invocations)
is recorded in an event trace, so that claims about lock discipline and about
the order of operations become decidable statements over the trace.

A second, deliberately coarser small-step relation (`GStep`) models the six
worker threads running the same loop concurrently; it is used for the
at-most-one-dispatch property, whose statement quantifies over interleavings.
-/

namespace DECaxp

/-- The `AXP_PIPELINE` enumeration, in the order used to index `pipeCond`
(see `insPipelineStr`: None, U0, U1, U0U1, L0, L1, L0L1, L0L1U0U1, Mul, Other). -/
inductive AXP_PIPELINE where
  | PipelineNone
  | EboxU0
  | EboxU1
  | EboxU0U1
  | EboxL0
  | EboxL1
  | EboxL0L1
  | EboxL0L1U0U1
  | FboxMul
  | FboxOther
deriving DecidableEq, Repr

/-- The `AXP_INS_STATE` enumeration (see `insStateStr`). -/
inductive AXP_INS_STATE where
  | Retired
  | Queued
  | Executing
  | WaitingRetirement
  | Aborted
deriving DecidableEq, Repr

/-- Exception summary values written to `ins->excRegMask`.  The worker loop only
ever writes `FloatingDisabledFault`; other values are abstracted. -/
inductive AXP_EXCEPTIONS where
  | NoException
  | FloatingDisabledFault
  | OtherException (n : Nat)
deriving DecidableEq, Repr

/-- CPU lifecycle state; the loop only ever tests `cpuState == ShuttingDown`,
so all non-shutdown states are collapsed into `Running`. -/
inductive CpuRunState where
  | Running
  | ShuttingDown
deriving DecidableEq, Repr

/-- The static table `pipeCond[AXP_PIPE_OPTIONS][3]` from the source, row by row. -/
def pipeCond (p : AXP_PIPELINE) : AXP_PIPELINE × AXP_PIPELINE × AXP_PIPELINE :=
  match p with
  | .PipelineNone => (.PipelineNone, .PipelineNone, .PipelineNone)
  | .EboxU0       => (.EboxU0, .EboxU0U1, .EboxL0L1U0U1)
  | .EboxU1       => (.EboxU1, .EboxU0U1, .EboxL0L1U0U1)
  | .EboxU0U1     => (.PipelineNone, .PipelineNone, .PipelineNone)
  | .EboxL0       => (.EboxL0, .EboxL0L1, .EboxL0L1U0U1)
  | .EboxL1       => (.EboxL1, .EboxL0L1, .EboxL0L1U0U1)
  | .EboxL0L1     => (.PipelineNone, .PipelineNone, .PipelineNone)
  | .EboxL0L1U0U1 => (.PipelineNone, .PipelineNone, .PipelineNone)
  | .FboxMul      => (.FboxMul, .FboxMul, .FboxMul)
  | .FboxOther    => (.FboxOther, .FboxOther, .FboxOther)

/-- The eligibility test of lines 224-226: the entry is skipped iff its tag
differs from all three table slots; it may be claimed iff it matches one. -/
def eligible (pl tag : AXP_PIPELINE) : Bool :=
  tag = (pipeCond pl).1 || tag = (pipeCond pl).2.1 || tag = (pipeCond pl).2.2

/-- An `AXP_QUEUE_ENTRY` as used by the loop: its pipeline tag, its `processing`
claim flag, and the index of its instruction (`entry->ins`) in the ROB slots. -/
structure AXP_QUEUE_ENTRY where
  pipeline : AXP_PIPELINE
  processing : Bool
  ins : Nat
deriving DecidableEq, Repr

/-- The instruction fields the loop reads or writes (`ins->state`, `ins->excRegMask`). -/
structure Instr where
  state : AXP_INS_STATE
  excRegMask : AXP_EXCEPTIONS
deriving DecidableEq, Repr

/-- The slice of `AXP_21264_CPU` the loop touches.  `queue` is the counted queue,
given as the list of entry indices in link order (the sentinel is the end of the
list); `entries` are the queue entries; `instrs` the ROB slots; `fpe` the
`cpu->pCtx.fpe == 1` bit; `cpuState` the lifecycle word. -/
structure CPU where
  cpuState : CpuRunState
  queue : List Nat
  entries : List AXP_QUEUE_ENTRY
  instrs : List Instr
  fpe : Bool
deriving DecidableEq, Repr

/-- Events recorded by the model, one per externally visible action of the loop. -/
inductive Event where
  | lockPipeline
  | unlockPipeline
  | lockROB
  | unlockROB
  | lockIPR
  | unlockIPR
  | condWait
  | scanStart
  | claim (i : Nat)
  | setProcessing (i : Nat) (b : Bool)
  | removeQueue (i : Nat)
  | readState (n : Nat) (s : AXP_INS_STATE)
  | setState (n : Nat) (s : AXP_INS_STATE)
  | setExcRegMask (n : Nat) (m : AXP_EXCEPTIONS)
  | regCheck (i : Nat) (ok : Bool)
  | readFpe (v : Bool)
  | dispatch (n : Nat)
  | returnIQ (i : Nat)
  | returnFn (i : Nat)
deriving DecidableEq, Repr

/-- Default entry used only for out-of-range lookups (which the claims never hit). -/
def defaultEntry : AXP_QUEUE_ENTRY := ⟨.PipelineNone, false, 0⟩

/-- Default instruction used only for out-of-range lookups. -/
def defaultInstr : Instr := ⟨.Queued, .NoException⟩

/-- Dereference of `entry` number `i`. -/
def getEntry (cpu : CPU) (i : Nat) : AXP_QUEUE_ENTRY := cpu.entries.getD i defaultEntry

/-- Dereference of `entry->ins`, ROB slot `n`. -/
def getInstr (cpu : CPU) (n : Nat) : Instr := cpu.instrs.getD n defaultInstr

/-- Write `entry->processing` of entry `i`. -/
def setProcessingL (es : List AXP_QUEUE_ENTRY) (i : Nat) (b : Bool) :
    List AXP_QUEUE_ENTRY :=
  es.set i { es.getD i defaultEntry with processing := b }

/-- Replace ROB slot `n`. -/
def setInstr (cpu : CPU) (n : Nat) (ins : Instr) : CPU :=
  { cpu with instrs := cpu.instrs.set n ins }

/-- The scan of lines 174-251: walk the queue in link order; skip an entry whose
tag matches none of the three `pipeCond` slots (lines 224-240); skip an entry
already claimed (`processing == true`); otherwise claim it (lines 241-245).
Returns the index of the entry that the `break` at line 244 leaves in `entry`,
or `none` when the walk reaches the sentinel. -/
def scanClaim (pl : AXP_PIPELINE) (es : List AXP_QUEUE_ENTRY) :
    List Nat → Option Nat
  | [] => none
  | i :: rest =>
    match es.get? i with
    | none => scanClaim pl es rest
    | some e =>
      if eligible pl e.pipeline && e.processing = false then some i
      else scanClaim pl es rest

/-- Lines 289-408: processing of an entry `i` that the scan has just claimed
(`processing` already set to `true`, pipeline mutex already released at line
282).  `regCheck` is the value the `regCheckEntry` callback returns for each
entry.  Returns the updated CPU and the trace of this phase. -/
def processClaimed (pl : AXP_PIPELINE) (cpu : CPU) (i : Nat)
    (regCheck : Nat → Bool) : CPU × List Event :=
  let e := getEntry cpu i
  -- lines 289-291: read `entry->ins->state` under the ROB mutex
  let st := (getInstr cpu e.ins).state
  let tr0 : List Event := [.lockROB, .readState e.ins st, .unlockROB]
  if st = .Aborted then
    -- lines 292-304: remove (note: pipeline mutex NOT held here), clear
    -- `processing`, then call AXP_ReturnIQEntry directly (not `returnEntry`)
    ({ cpu with queue := cpu.queue.erase i,
                entries := setProcessingL cpu.entries i false },
     tr0 ++ [.removeQueue i, .setProcessing i false, .returnIQ i])
  else if regCheck i = false then
    -- lines 311-315: clear `processing` and continue
    ({ cpu with entries := setProcessingL cpu.entries i false },
     tr0 ++ [.regCheck i false, .setProcessing i false])
  else
    -- lines 333-335: relock the pipeline mutex, dequeue, unlock
    let cpu3 : CPU := { cpu with queue := cpu.queue.erase i }
    -- lines 340-342: state := Executing under the ROB mutex
    let cpu4 := setInstr cpu3 e.ins { getInstr cpu3 e.ins with state := .Executing }
    let tr4 := tr0 ++ [.regCheck i true, .lockPipeline, .removeQueue i,
                       .unlockPipeline, .lockROB, .setState e.ins .Executing,
                       .unlockROB]
    -- lines 351-358: the floating-point-enable check
    if pl = .FboxMul ∨ pl = .FboxOther then
      if cpu4.fpe then
        -- line 376: AXP_Dispatcher; lines 407-408: clear processing, returnEntry
        ({ cpu4 with entries := setProcessingL cpu4.entries i false },
         tr4 ++ [.lockIPR, .readFpe cpu4.fpe, .unlockIPR,
                 .dispatch e.ins, .setProcessing i false, .returnFn i])
      else
        -- lines 398-401: excRegMask := FloatingDisabledFault,
        -- state := WaitingRetirement, both under the ROB mutex
        let cpu5 := setInstr cpu4 e.ins
          { getInstr cpu4 e.ins with excRegMask := .FloatingDisabledFault }
        let cpu6 := setInstr cpu5 e.ins
          { getInstr cpu5 e.ins with state := .WaitingRetirement }
        ({ cpu6 with entries := setProcessingL cpu6.entries i false },
         tr4 ++ [.lockIPR, .readFpe cpu4.fpe, .unlockIPR, .lockROB,
                 .setExcRegMask e.ins .FloatingDisabledFault,
                 .setState e.ins .WaitingRetirement, .unlockROB,
                 .setProcessing i false, .returnFn i])
    else
      -- integer pipelines: fpEnable := true (line 358), always dispatch
      ({ cpu4 with entries := setProcessingL cpu4.entries i false },
       tr4 ++ [.dispatch e.ins, .setProcessing i false, .returnFn i])

/-- The inner wait loop of lines 152-165.  While
`(AXP_CQUEP_EMPTY(queue) && cpuState != ShuttingDown) || notMe`, the worker
waits on the condition variable.  Each wake hands back the CPU state as the
environment (producer / shutdown coordinator) left it; `wakes` lists those
states in order.  `none` means the environment delivers no further signal and
the worker stays blocked in `pthread_cond_wait`. -/
def waitLoop (cpu : CPU) (notMe : Bool) (wakes : List CPU) :
    Option (CPU × List Event) :=
  if (cpu.queue.isEmpty && !(cpu.cpuState = .ShuttingDown)) || notMe then
    match wakes with
    | [] => none
    | c :: rest =>
      match waitLoop c false rest with
      | none => none
      | some (c2, tr) => some (c2, Event.condWait :: tr)
  else some (cpu, [])

/-- Per-iteration environment: the states observed after each condition-variable
wake, the values the `regCheckEntry` callback returns, and whether the shutdown
coordinator has stored `ShuttingDown` by the time the outer `while` re-reads
`cpu->cpuState` (line 140). -/
structure IterEnv where
  wakes : List CPU
  regCheck : Nat → Bool
  postShutdown : Bool

/-- One pass of the outer loop body, lines 146-409: lock the pipeline mutex,
run the wait loop, then (unless shutting down) scan, claim and process.
Returns the new CPU, the new value of `notMe`, and the trace.  On the path that
observes shutdown at line 172 the pipeline mutex stays held, as in the source. -/
def iterate (pl : AXP_PIPELINE) (cpu : CPU) (notMe : Bool) (env : IterEnv) :
    Option (CPU × Bool × List Event) :=
  match waitLoop cpu notMe env.wakes with
  | none => none
  | some (cpu1, trW) =>
    if cpu1.cpuState = .ShuttingDown then
      -- line 172 test fails: skip the body, keep the mutex held
      some (cpu1, false, Event.lockPipeline :: trW)
    else
      match scanClaim pl cpu1.entries cpu1.queue with
      | none =>
        -- lines 258-276: nothing eligible; notMe := true, unlock, continue
        some (cpu1, true,
              Event.lockPipeline :: trW ++ [Event.scanStart, Event.unlockPipeline])
      | some i =>
        -- line 243: entry->processing = true, then unlock at line 282
        let cpu2 : CPU := { cpu1 with entries := setProcessingL cpu1.entries i true }
        let r := processClaimed pl cpu2 i env.regCheck
        some (r.1, false,
              Event.lockPipeline :: trW ++
                [Event.scanStart, Event.claim i, Event.setProcessing i true,
                 Event.unlockPipeline] ++ r.2)

/-- The outer `while` of lines 140-410 plus the final unlock of line 415.  One
`IterEnv` is consumed per iteration; after each iteration the shared
`cpu->cpuState` word may have been set to `ShuttingDown` by the coordinator
(`postShutdown`), which the loop head re-reads.  `none` means the run is not
resolved within the modelled environment (the worker blocks or keeps looping). -/
def runLoop (pl : AXP_PIPELINE) (cpu : CPU) (notMe : Bool) :
    List IterEnv → Option (CPU × List Event)
  | [] =>
    if cpu.cpuState = .ShuttingDown then
      -- line 415: pthread_mutex_unlock(mutex) executed unconditionally
      some (cpu, [Event.unlockPipeline])
    else none
  | env :: rest =>
    if cpu.cpuState = .ShuttingDown then
      some (cpu, [Event.unlockPipeline])
    else
      match iterate pl cpu notMe env with
      | none => none
      | some (cpu2, notMe2, tr) =>
        match runLoop pl
            { cpu2 with cpuState :=
                if env.postShutdown then .ShuttingDown else cpu2.cpuState }
            notMe2 rest with
        | none => none
        | some (cpu3, tr2) => some (cpu3, tr ++ tr2)

/-- The whole function `AXP_Execution_Box`: `notMe` starts out `true` (line 133). -/
def AXP_Execution_Box (pl : AXP_PIPELINE) (cpu : CPU) (envs : List IterEnv) :
    Option (CPU × List Event) :=
  runLoop pl cpu true envs

/-- Holds iff every `removeQueue` event in the trace happens while the pipeline
mutex is held, starting from holding state `held`. -/
def removesUnderMutex : List Event → Bool → Bool
  | [], _ => true
  | e :: rest, held =>
    match e with
    | .lockPipeline => removesUnderMutex rest true
    | .unlockPipeline => removesUnderMutex rest false
    | .removeQueue _ => held && removesUnderMutex rest held
    | _ => removesUnderMutex rest held

/-- Holds iff every ROB write (`setState`, `setExcRegMask`) in the trace happens
while the ROB mutex is held. -/
def robWritesUnderMutex : List Event → Bool → Bool
  | [], _ => true
  | e :: rest, held =>
    match e with
    | .lockROB => robWritesUnderMutex rest true
    | .unlockROB => robWritesUnderMutex rest false
    | .setState _ _ => held && robWritesUnderMutex rest held
    | .setExcRegMask _ _ => held && robWritesUnderMutex rest held
    | _ => robWritesUnderMutex rest held

/-- Holds iff every `readFpe` event in the trace happens while the IPR mutex is
held. -/
def fpeReadsUnderMutex : List Event → Bool → Bool
  | [], _ => true
  | e :: rest, held =>
    match e with
    | .lockIPR => fpeReadsUnderMutex rest true
    | .unlockIPR => fpeReadsUnderMutex rest false
    | .readFpe _ => held && fpeReadsUnderMutex rest held
    | _ => fpeReadsUnderMutex rest held

/-- The test `onlyAfter b a tr` is `true` iff no occurrence of `b` in `tr`
precedes the first occurrence of `a`: every `b` happens after some `a`
(vacuously `true` when `b` never occurs). -/
def onlyAfter (b a : Event) : List Event → Bool
  | [] => true
  | e :: rest => if e = b then false else if e = a then true else onlyAfter b a rest

/-- Whether the pipeline mutex is held after executing the trace, starting not
holding it. -/
def heldAfter (tr : List Event) : Bool :=
  tr.foldl
    (fun h e =>
      match e with
      | .lockPipeline => true
      | .unlockPipeline => false
      | _ => h)
    false

/-- The final `pthread_mutex_unlock` of line 415 is balanced iff the trace ends
in `unlockPipeline` and the worker holds the pipeline mutex just before it. -/
def finalUnlockBalanced (tr : List Event) : Bool :=
  tr.getLast? = some Event.unlockPipeline && heldAfter tr.dropLast

/-!
## Concurrent model

Six worker threads run `AXP_Execution_Box` concurrently with the producer and
the ROB.  For the at-most-one-dispatch property the loop body is modelled as a
small-step transition system over a global state: each worker has a program
counter recording where in the claim-to-return path it stands, and each step is
one of the code's critical sections (a block executed while holding one mutex,
or a single word-sized access), which interleave atomically under sequential
consistency.  Entries are identified by ids that the producer uses at most once
(a reused pool entry counts as a fresh id, matching "for every entry ever
enqueued" in the property).
-/

/-- Program counter of one worker inside the loop body.  `top` is the loop head
(line 140); `claimed i` is just after the claim of lines 241-245 and the unlock
of line 282; `dequeued i` just after the removal of lines 333-335; `execing i`
just after line 341; `done i` just after the dispatch of line 376 or the fault
path of lines 398-401. -/
inductive WPC where
  | top
  | claimed (i : Nat)
  | dequeued (i : Nat)
  | execing (i : Nat)
  | done (i : Nat)
deriving DecidableEq, Repr

/-- Global state of the concurrent model.  `queue` is the shared counted queue
(entry ids in link order); `everQueued` records every id the producer has ever
enqueued; `processing`, `insState` are per-entry; `pc` maps each worker to its
program counter; `wpipe` is the (immutable) pipeline identity of each worker;
`tag` the pipeline tag of each entry; `dispCount e` counts the calls
`AXP_Dispatcher(cpu, e->ins)` made so far for entry `e`. -/
structure GState where
  queue : List Nat
  everQueued : List Nat
  processing : Nat → Bool
  insState : Nat → AXP_INS_STATE
  pc : Nat → WPC
  wpipe : Nat → AXP_PIPELINE
  tag : Nat → AXP_PIPELINE
  dispCount : Nat → Nat
  fpe : Bool

/-- One interleaved step of a worker, the producer, or the ROB. -/
inductive GStep : GState → GState → Prop where
  /-- Producer (lines of the issue stage, per the enqueue contract): appends a
  fresh entry with `processing = false`, `state = Queued`. -/
  | enqueue (s : GState) (e : Nat) (tg : AXP_PIPELINE) (hfresh : e ∉ s.everQueued) :
      GStep s { s with queue := s.queue ++ [e],
                       everQueued := e :: s.everQueued,
                       tag := Function.update s.tag e tg,
                       processing := Function.update s.processing e false,
                       insState := Function.update s.insState e .Queued }
  /-- The ROB aborts an instruction (it alone may set `Aborted`). -/
  | abortByROB (s : GState) (e : Nat) :
      GStep s { s with insState := Function.update s.insState e .Aborted }
  /-- Lines 146-282 as one critical section under the pipeline mutex: the scan
  finds entry `e` linked, unclaimed and eligible, sets `processing`, unlocks. -/
  | claim (s : GState) (w e : Nat) (hpc : s.pc w = .top) (hq : e ∈ s.queue)
      (hp : s.processing e = false)
      (helig : eligible (s.wpipe w) (s.tag e) = true) :
      GStep s { s with processing := Function.update s.processing e true,
                       pc := Function.update s.pc w (.claimed e) }
  /-- Lines 289-304: the claimed instruction reads `Aborted`; the worker removes
  the entry, clears `processing`, returns it, and goes back to the loop head. -/
  | abortSeen (s : GState) (w e : Nat) (hpc : s.pc w = .claimed e)
      (hab : s.insState e = .Aborted) :
      GStep s { s with queue := s.queue.erase e,
                       processing := Function.update s.processing e false,
                       pc := Function.update s.pc w .top }
  /-- Lines 311-315: `regCheckEntry` returned false; clear `processing` and go
  back to the loop head (the callback's verdict is environmental, hence
  nondeterministic here). -/
  | regFail (s : GState) (w e : Nat) (hpc : s.pc w = .claimed e)
      (hab : s.insState e ≠ .Aborted) :
      GStep s { s with processing := Function.update s.processing e false,
                       pc := Function.update s.pc w .top }
  /-- Lines 333-335: `regCheckEntry` returned true; remove the entry under the
  pipeline mutex. -/
  | dequeue (s : GState) (w e : Nat) (hpc : s.pc w = .claimed e)
      (hab : s.insState e ≠ .Aborted) :
      GStep s { s with queue := s.queue.erase e,
                       pc := Function.update s.pc w (.dequeued e) }
  /-- Lines 340-342: `state := Executing` under the ROB mutex. -/
  | setExec (s : GState) (w e : Nat) (hpc : s.pc w = .dequeued e) :
      GStep s { s with insState := Function.update s.insState e .Executing,
                       pc := Function.update s.pc w (.execing e) }
  /-- Line 376: `AXP_Dispatcher(cpu, entry->ins)` — taken when the worker is an
  integer pipeline or observed `fpe == 1`. -/
  | dispatch (s : GState) (w e : Nat) (hpc : s.pc w = .execing e)
      (hfp : eligible (s.wpipe w) (s.tag e) = true) :
      GStep s { s with dispCount := Function.update s.dispCount e (s.dispCount e + 1),
                       pc := Function.update s.pc w (.done e) }
  /-- Lines 398-401: floating-point worker with `fpe == 0`; record the fault
  instead of dispatching. -/
  | fpFault (s : GState) (w e : Nat) (hpc : s.pc w = .execing e) :
      GStep s { s with insState := Function.update s.insState e .WaitingRetirement,
                       pc := Function.update s.pc w (.done e) }
  /-- Lines 407-408: clear `processing`, return the entry, back to the loop head. -/
  | finish (s : GState) (w e : Nat) (hpc : s.pc w = .done e) :
      GStep s { s with processing := Function.update s.processing e false,
                       pc := Function.update s.pc w .top }

/-- Initial global state: empty queue, nothing ever enqueued, all workers at the
loop head. -/
def initG (wp : Nat → AXP_PIPELINE) (tg : Nat → AXP_PIPELINE) (fp : Bool) : GState :=
  { queue := [], everQueued := [], processing := fun _ => false,
    insState := fun _ => .Queued, pc := fun _ => .top,
    wpipe := wp, tag := tg, dispCount := fun _ => 0, fpe := fp }

/-- Reachability from some initial state. -/
inductive Reach : GState → Prop where
  | init (wp tg : Nat → AXP_PIPELINE) (fp : Bool) : Reach (initG wp tg fp)
  | step {s s' : GState} (h : Reach s) (hs : GStep s s') : Reach s'

/-- Worker program counter `p` currently holds entry `e` (between the claim of
line 243 and the final clearing of `processing` for that attempt). -/
def holds (p : WPC) (e : Nat) : Prop :=
  p = .claimed e ∨ p = .dequeued e ∨ p = .execing e ∨ p = .done e

/-- The inductive invariant that carries the at-most-one-dispatch property. -/
structure Inv (s : GState) : Prop where
  qSub : ∀ e, e ∈ s.queue → e ∈ s.everQueued
  nodup : s.queue.Nodup
  uniq : ∀ w w' e, holds (s.pc w) e → holds (s.pc w') e → w = w'
  holdProc : ∀ w e, holds (s.pc w) e → s.processing e = true ∧ e ∈ s.everQueued
  deqOut : ∀ w e, (s.pc w = .dequeued e ∨ s.pc w = .execing e ∨ s.pc w = .done e) →
    e ∉ s.queue
  dcLe : ∀ e, s.dispCount e ≤ 1
  dcOne : ∀ e, 1 ≤ s.dispCount e → e ∉ s.queue ∧
    ∀ w, s.pc w ≠ .claimed e ∧ s.pc w ≠ .dequeued e ∧ s.pc w ≠ .execing e
  fresh : ∀ e, e ∉ s.everQueued →
    s.dispCount e = 0 ∧ s.processing e = false ∧ ∀ w, ¬ holds (s.pc w) e

/-!
## Fixtures and derived notions used by the claim theorems
-/

/-- Whether a trace contains a call of `AXP_Dispatcher`. -/
def hasDispatch : List Event → Bool
  | [] => false
  | e :: rest =>
    (match e with
     | .dispatch _ => true
     | _ => false) || hasDispatch rest

/-- The compatibility rows exactly as the specification states them (section
4.1 of the spec); to be compared with `eligible`, which comes from `pipeCond`
in the source. -/
def specRow : AXP_PIPELINE → List AXP_PIPELINE
  | .EboxU0 => [.EboxU0, .EboxU0U1, .EboxL0L1U0U1]
  | .EboxU1 => [.EboxU1, .EboxU0U1, .EboxL0L1U0U1]
  | .EboxL0 => [.EboxL0, .EboxL0L1, .EboxL0L1U0U1]
  | .EboxL1 => [.EboxL1, .EboxL0L1, .EboxL0L1U0U1]
  | .FboxMul => [.FboxMul]
  | .FboxOther => [.FboxOther]
  | _ => []

/-- The six worker identities the loop is ever started with. -/
def workerPipelines : List AXP_PIPELINE :=
  [.EboxU0, .EboxU1, .EboxL0, .EboxL1, .FboxMul, .FboxOther]

/-- One entry tagged `FboxMul` whose instruction the ROB has already aborted. -/
def cpuAbort : CPU :=
  ⟨.Running, [0], [⟨.FboxMul, false, 0⟩], [⟨.Aborted, .NoException⟩], true⟩

/-- Environment: no wakes needed, register check succeeds, no shutdown. -/
def envTrue : IterEnv := ⟨[], fun _ => true, false⟩

/-- The trace of the abort-path iteration on `cpuAbort`. -/
def trAbort : List Event :=
  [.lockPipeline, .scanStart, .claim 0, .setProcessing 0 true, .unlockPipeline,
   .lockROB, .readState 0 .Aborted, .unlockROB, .removeQueue 0,
   .setProcessing 0 false, .returnIQ 0]

/-- One queued entry tagged `EboxU0`, claimable by the U0 worker. -/
def cpuStall : CPU :=
  ⟨.Running, [0], [⟨.EboxU0, false, 0⟩], [⟨.Queued, .NoException⟩], true⟩

/-- Environment whose register check fails. -/
def envFalse : IterEnv := ⟨[], fun _ => false, false⟩

/-- The trace of the register-stall iteration on `cpuStall`. -/
def trStall : List Event :=
  [.lockPipeline, .scanStart, .claim 0, .setProcessing 0 true, .unlockPipeline,
   .lockROB, .readState 0 .Queued, .unlockROB, .regCheck 0 false,
   .setProcessing 0 false]

/-- A CPU whose lifecycle state is already `ShuttingDown`. -/
def cpuShut : CPU :=
  ⟨.ShuttingDown, [0], [⟨.EboxU0, false, 0⟩], [⟨.Queued, .NoException⟩], true⟩

/-- A running CPU with an empty queue. -/
def cpuIdle : CPU := ⟨.Running, [], [], [], true⟩

/-- Abort-path environment after which the coordinator stores `ShuttingDown`. -/
def envAbortShutdown : IterEnv := ⟨[], fun _ => true, true⟩

/-- Environment delivering one wake that observes the shutdown store. -/
def envWakeShut : IterEnv := ⟨[cpuShut], fun _ => true, false⟩

/-- Register-stall environment after which the coordinator stores `ShuttingDown`. -/
def envStallShutdown : IterEnv := ⟨[], fun _ => false, true⟩

/-- An `FboxOther` entry queued while floating-point instructions are disabled
(`fpe = 0`). -/
def cpuFpOff : CPU :=
  ⟨.Running, [0], [⟨.FboxOther, false, 0⟩], [⟨.Queued, .NoException⟩], false⟩

@[simp] theorem holds_top (e : Nat) : ¬ holds WPC.top e := by simp [holds]

@[simp] theorem holds_claimed {i e : Nat} : holds (WPC.claimed i) e ↔ i = e := by
  simp [holds]

@[simp] theorem holds_dequeued {i e : Nat} : holds (WPC.dequeued i) e ↔ i = e := by
  simp [holds]

@[simp] theorem holds_execing {i e : Nat} : holds (WPC.execing i) e ↔ i = e := by
  simp [holds]

@[simp] theorem holds_done {i e : Nat} : holds (WPC.done i) e ↔ i = e := by
  simp [holds]

/-- The invariant holds initially. -/
theorem inv_init (wp tg : Nat → AXP_PIPELINE) (fp : Bool) : Inv (initG wp tg fp) := by
  constructor <;> simp [initG]

/-- The invariant is preserved by every interleaved step. -/
theorem inv_step {s s' : GState} (inv : Inv s) (hs : GStep s s') : Inv s' := by
  cases hs with
  | enqueue e tg hfresh =>
    obtain ⟨hdc0, hpr0, hnh⟩ := inv.fresh e hfresh
    have heq : e ∉ s.queue := fun h => hfresh (inv.qSub e h)
    refine ⟨?_, ?_, ?_, ?_, ?_, ?_, ?_, ?_⟩ <;> (try dsimp only)
    · intro x hx
      rcases List.mem_append.mp hx with h | h
      · exact List.mem_cons_of_mem _ (inv.qSub x h)
      · simp at h; simp [h]
    · refine List.Nodup.append inv.nodup (by simp) ?_
      intro a ha hb
      simp at hb; subst hb
      exact heq ha
    · exact inv.uniq
    · intro w x hx
      have hxe : x ≠ e := fun h => hnh w (h ▸ hx)
      obtain ⟨h1, h2⟩ := inv.holdProc w x hx
      refine ⟨?_, List.mem_cons_of_mem _ h2⟩
      simpa [Function.update_apply, hxe] using h1
    · intro w x hx
      have hxh : holds (s.pc w) x := by
        rcases hx with h | h | h
        · exact Or.inr (Or.inl h)
        · exact Or.inr (Or.inr (Or.inl h))
        · exact Or.inr (Or.inr (Or.inr h))
      have hxe : x ≠ e := fun h => hnh w (h ▸ hxh)
      have := inv.deqOut w x hx
      simp [List.mem_append, this, hxe]
    · exact inv.dcLe
    · intro x hx
      have hxe : x ≠ e := by
        intro h; subst h; rw [hdc0] at hx; omega
      obtain ⟨h1, h2⟩ := inv.dcOne x hx
      exact ⟨by simp [List.mem_append, h1, hxe], h2⟩
    · intro x hx
      have hxe : x ≠ e := by intro h; subst h; exact hx (List.mem_cons_self _ _)
      have hx' : x ∉ s.everQueued := fun h => hx (List.mem_cons_of_mem _ h)
      obtain ⟨h1, h2, h3⟩ := inv.fresh x hx'
      exact ⟨h1, by simpa [Function.update_apply, hxe] using h2, h3⟩
  | abortByROB e =>
    exact ⟨inv.qSub, inv.nodup, inv.uniq, inv.holdProc, inv.deqOut, inv.dcLe,
           inv.dcOne, inv.fresh⟩
  | claim w e hpc hq hp helig =>
    have hnh : ∀ w', ¬ holds (s.pc w') e := by
      intro w' hh
      have := (inv.holdProc w' e hh).1
      rw [hp] at this; cases this
    refine ⟨inv.qSub, inv.nodup, ?_, ?_, ?_, inv.dcLe, ?_, ?_⟩ <;> (try dsimp only)
    · intro w1 w2 x h1 h2
      by_cases e1 : w1 = w <;> by_cases e2 : w2 = w
      · rw [e1, e2]
      · subst e1
        rw [Function.update_same] at h1
        rw [Function.update_noteq e2] at h2
        rw [holds_claimed] at h1; subst h1
        exact absurd h2 (hnh w2)
      · subst e2
        rw [Function.update_same] at h2
        rw [Function.update_noteq e1] at h1
        rw [holds_claimed] at h2; subst h2
        exact absurd h1 (hnh w1)
      · rw [Function.update_noteq e1] at h1
        rw [Function.update_noteq e2] at h2
        exact inv.uniq w1 w2 x h1 h2
    · intro w1 x hx
      by_cases e1 : w1 = w
      · subst e1
        rw [Function.update_same] at hx
        rw [holds_claimed] at hx; subst hx
        exact ⟨by rw [Function.update_same], inv.qSub e hq⟩
      · rw [Function.update_noteq e1] at hx
        obtain ⟨h1, h2⟩ := inv.holdProc w1 x hx
        refine ⟨?_, h2⟩
        by_cases hxe : x = e
        · subst hxe; rw [Function.update_same]
        · rw [Function.update_noteq hxe]; exact h1
    · intro w1 x hx
      by_cases e1 : w1 = w
      · subst e1; rw [Function.update_same] at hx
        rcases hx with h | h | h <;> cases h
      · rw [Function.update_noteq e1] at hx
        exact inv.deqOut w1 x hx
    · intro x hx
      obtain ⟨h1, h2⟩ := inv.dcOne x hx
      refine ⟨h1, ?_⟩
      intro w1
      by_cases e1 : w1 = w
      · subst e1; rw [Function.update_same]
        refine ⟨?_, by simp, by simp⟩
        intro h; rw [WPC.claimed.injEq] at h; subst h
        exact h1 hq
      · rw [Function.update_noteq e1]; exact h2 w1
    · intro x hx
      have hxe : x ≠ e := fun h => hx (h ▸ inv.qSub e hq)
      obtain ⟨h1, h2, h3⟩ := inv.fresh x hx
      refine ⟨h1, by rw [Function.update_noteq hxe]; exact h2, ?_⟩
      intro w1
      by_cases e1 : w1 = w
      · subst e1; rw [Function.update_same, holds_claimed]
        exact fun h => hxe h.symm
      · rw [Function.update_noteq e1]; exact h3 w1
  | abortSeen w e hpc hab =>
    have hw : holds (s.pc w) e := Or.inl hpc
    have hev : e ∈ s.everQueued := (inv.holdProc w e hw).2
    refine ⟨?_, inv.nodup.erase e, ?_, ?_, ?_, inv.dcLe, ?_, ?_⟩ <;> (try dsimp only)
    · exact fun x hx => inv.qSub x (List.mem_of_mem_erase hx)
    · intro w1 w2 x h1 h2
      by_cases e1 : w1 = w
      · subst e1; rw [Function.update_same] at h1; exact absurd h1 (holds_top x)
      · by_cases e2 : w2 = w
        · subst e2; rw [Function.update_same] at h2; exact absurd h2 (holds_top x)
        · rw [Function.update_noteq e1] at h1
          rw [Function.update_noteq e2] at h2
          exact inv.uniq w1 w2 x h1 h2
    · intro w1 x hx
      by_cases e1 : w1 = w
      · subst e1; rw [Function.update_same] at hx; exact absurd hx (holds_top x)
      · rw [Function.update_noteq e1] at hx
        obtain ⟨h1, h2⟩ := inv.holdProc w1 x hx
        have hxe : x ≠ e := by
          intro h; subst h
          exact e1 (inv.uniq w1 w x hx hw)
        exact ⟨by rw [Function.update_noteq hxe]; exact h1, h2⟩
    · intro w1 x hx
      by_cases e1 : w1 = w
      · subst e1; rw [Function.update_same] at hx
        rcases hx with h | h | h <;> cases h
      · rw [Function.update_noteq e1] at hx
        exact fun hmem => inv.deqOut w1 x hx (List.mem_of_mem_erase hmem)
    · intro x hx
      obtain ⟨h1, h2⟩ := inv.dcOne x hx
      refine ⟨fun hmem => h1 (List.mem_of_mem_erase hmem), ?_⟩
      intro w1
      by_cases e1 : w1 = w
      · subst e1; rw [Function.update_same]; exact ⟨by simp, by simp, by simp⟩
      · rw [Function.update_noteq e1]; exact h2 w1
    · intro x hx
      have hxe : x ≠ e := fun h => hx (h ▸ hev)
      obtain ⟨h1, h2, h3⟩ := inv.fresh x hx
      refine ⟨h1, by rw [Function.update_noteq hxe]; exact h2, ?_⟩
      intro w1
      by_cases e1 : w1 = w
      · subst e1; rw [Function.update_same]; exact holds_top x
      · rw [Function.update_noteq e1]; exact h3 w1
  | regFail w e hpc hab =>
    have hw : holds (s.pc w) e := Or.inl hpc
    have hev : e ∈ s.everQueued := (inv.holdProc w e hw).2
    refine ⟨inv.qSub, inv.nodup, ?_, ?_, ?_, inv.dcLe, ?_, ?_⟩ <;> (try dsimp only)
    · intro w1 w2 x h1 h2
      by_cases e1 : w1 = w
      · subst e1; rw [Function.update_same] at h1; exact absurd h1 (holds_top x)
      · by_cases e2 : w2 = w
        · subst e2; rw [Function.update_same] at h2; exact absurd h2 (holds_top x)
        · rw [Function.update_noteq e1] at h1
          rw [Function.update_noteq e2] at h2
          exact inv.uniq w1 w2 x h1 h2
    · intro w1 x hx
      by_cases e1 : w1 = w
      · subst e1; rw [Function.update_same] at hx; exact absurd hx (holds_top x)
      · rw [Function.update_noteq e1] at hx
        obtain ⟨h1, h2⟩ := inv.holdProc w1 x hx
        have hxe : x ≠ e := by
          intro h; subst h
          exact e1 (inv.uniq w1 w x hx hw)
        exact ⟨by rw [Function.update_noteq hxe]; exact h1, h2⟩
    · intro w1 x hx
      by_cases e1 : w1 = w
      · subst e1; rw [Function.update_same] at hx
        rcases hx with h | h | h <;> cases h
      · rw [Function.update_noteq e1] at hx
        exact inv.deqOut w1 x hx
    · intro x hx
      obtain ⟨h1, h2⟩ := inv.dcOne x hx
      refine ⟨h1, ?_⟩
      intro w1
      by_cases e1 : w1 = w
      · subst e1; rw [Function.update_same]; exact ⟨by simp, by simp, by simp⟩
      · rw [Function.update_noteq e1]; exact h2 w1
    · intro x hx
      have hxe : x ≠ e := fun h => hx (h ▸ hev)
      obtain ⟨h1, h2, h3⟩ := inv.fresh x hx
      refine ⟨h1, by rw [Function.update_noteq hxe]; exact h2, ?_⟩
      intro w1
      by_cases e1 : w1 = w
      · subst e1; rw [Function.update_same]; exact holds_top x
      · rw [Function.update_noteq e1]; exact h3 w1
  | dequeue w e hpc hab =>
    have hw : holds (s.pc w) e := Or.inl hpc
    have hev : e ∈ s.everQueued := (inv.holdProc w e hw).2
    refine ⟨?_, inv.nodup.erase e, ?_, ?_, ?_, inv.dcLe, ?_, ?_⟩ <;> (try dsimp only)
    · exact fun x hx => inv.qSub x (List.mem_of_mem_erase hx)
    · intro w1 w2 x h1 h2
      by_cases e1 : w1 = w <;> by_cases e2 : w2 = w
      · rw [e1, e2]
      · subst e1
        rw [Function.update_same, holds_dequeued] at h1; subst h1
        rw [Function.update_noteq e2] at h2
        exact absurd (inv.uniq w2 w1 e h2 hw) e2
      · subst e2
        rw [Function.update_same, holds_dequeued] at h2; subst h2
        rw [Function.update_noteq e1] at h1
        exact absurd (inv.uniq w1 w2 e h1 hw) e1
      · rw [Function.update_noteq e1] at h1
        rw [Function.update_noteq e2] at h2
        exact inv.uniq w1 w2 x h1 h2
    · intro w1 x hx
      by_cases e1 : w1 = w
      · subst e1; rw [Function.update_same, holds_dequeued] at hx; subst hx
        exact ⟨(inv.holdProc w1 e hw).1, hev⟩
      · rw [Function.update_noteq e1] at hx
        exact inv.holdProc w1 x hx
    · intro w1 x hx
      by_cases e1 : w1 = w
      · subst e1; rw [Function.update_same] at hx
        have hxe : x = e := by
          rcases hx with h | h | h <;>
            first
            | (rw [WPC.dequeued.injEq] at h; exact h.symm)
            | cases h
        subst hxe
        intro hmem
        exact absurd ((inv.nodup.mem_erase_iff).mp hmem).1 (by simp)
      · rw [Function.update_noteq e1] at hx
        exact fun hmem => inv.deqOut w1 x hx (List.mem_of_mem_erase hmem)
    · intro x hx
      obtain ⟨h1, h2⟩ := inv.dcOne x hx
      have hxe : x ≠ e := by
        intro h; subst h
        exact (h2 w).1 hpc
      refine ⟨fun hmem => h1 (List.mem_of_mem_erase hmem), ?_⟩
      intro w1
      by_cases e1 : w1 = w
      · subst e1; rw [Function.update_same]
        refine ⟨by simp, ?_, by simp⟩
        intro h; rw [WPC.dequeued.injEq] at h; exact hxe h.symm
      · rw [Function.update_noteq e1]; exact h2 w1
    · intro x hx
      have hxe : x ≠ e := fun h => hx (h ▸ hev)
      obtain ⟨h1, h2, h3⟩ := inv.fresh x hx
      refine ⟨h1, h2, ?_⟩
      intro w1
      by_cases e1 : w1 = w
      · subst e1; rw [Function.update_same, holds_dequeued]
        exact fun h => hxe h.symm
      · rw [Function.update_noteq e1]; exact h3 w1
  | setExec w e hpc =>
    have hw : holds (s.pc w) e := Or.inr (Or.inl hpc)
    have hev : e ∈ s.everQueued := (inv.holdProc w e hw).2
    refine ⟨inv.qSub, inv.nodup, ?_, ?_, ?_, inv.dcLe, ?_, ?_⟩ <;> (try dsimp only)
    · intro w1 w2 x h1 h2
      by_cases e1 : w1 = w <;> by_cases e2 : w2 = w
      · rw [e1, e2]
      · subst e1
        rw [Function.update_same, holds_execing] at h1; subst h1
        rw [Function.update_noteq e2] at h2
        exact absurd (inv.uniq w2 w1 e h2 hw) e2
      · subst e2
        rw [Function.update_same, holds_execing] at h2; subst h2
        rw [Function.update_noteq e1] at h1
        exact absurd (inv.uniq w1 w2 e h1 hw) e1
      · rw [Function.update_noteq e1] at h1
        rw [Function.update_noteq e2] at h2
        exact inv.uniq w1 w2 x h1 h2
    · intro w1 x hx
      by_cases e1 : w1 = w
      · subst e1; rw [Function.update_same, holds_execing] at hx; subst hx
        exact ⟨(inv.holdProc w1 e hw).1, hev⟩
      · rw [Function.update_noteq e1] at hx
        exact inv.holdProc w1 x hx
    · intro w1 x hx
      by_cases e1 : w1 = w
      · subst e1; rw [Function.update_same] at hx
        have hxe : x = e := by
          rcases hx with h | h | h <;>
            first
            | (rw [WPC.execing.injEq] at h; exact h.symm)
            | cases h
        subst hxe
        exact inv.deqOut w1 x (Or.inl hpc)
      · rw [Function.update_noteq e1] at hx
        exact inv.deqOut w1 x hx
    · intro x hx
      obtain ⟨h1, h2⟩ := inv.dcOne x hx
      have hxe : x ≠ e := by
        intro h; subst h
        exact (h2 w).2.1 hpc
      refine ⟨h1, ?_⟩
      intro w1
      by_cases e1 : w1 = w
      · subst e1; rw [Function.update_same]
        refine ⟨by simp, by simp, ?_⟩
        intro h; rw [WPC.execing.injEq] at h; exact hxe h.symm
      · rw [Function.update_noteq e1]; exact h2 w1
    · intro x hx
      have hxe : x ≠ e := fun h => hx (h ▸ hev)
      obtain ⟨h1, h2, h3⟩ := inv.fresh x hx
      refine ⟨h1, h2, ?_⟩
      intro w1
      by_cases e1 : w1 = w
      · subst e1; rw [Function.update_same, holds_execing]
        exact fun h => hxe h.symm
      · rw [Function.update_noteq e1]; exact h3 w1
  | dispatch w e hpc hfp =>
    have hw : holds (s.pc w) e := Or.inr (Or.inr (Or.inl hpc))
    have hev : e ∈ s.everQueued := (inv.holdProc w e hw).2
    have hdc0 : s.dispCount e = 0 := by
      by_contra h
      have h1 : 1 ≤ s.dispCount e := Nat.one_le_iff_ne_zero.mpr h
      exact ((inv.dcOne e h1).2 w).2.2 hpc
    refine ⟨inv.qSub, inv.nodup, ?_, ?_, ?_, ?_, ?_, ?_⟩ <;> (try dsimp only)
    · intro w1 w2 x h1 h2
      by_cases e1 : w1 = w <;> by_cases e2 : w2 = w
      · rw [e1, e2]
      · subst e1
        rw [Function.update_same, holds_done] at h1; subst h1
        rw [Function.update_noteq e2] at h2
        exact absurd (inv.uniq w2 w1 e h2 hw) e2
      · subst e2
        rw [Function.update_same, holds_done] at h2; subst h2
        rw [Function.update_noteq e1] at h1
        exact absurd (inv.uniq w1 w2 e h1 hw) e1
      · rw [Function.update_noteq e1] at h1
        rw [Function.update_noteq e2] at h2
        exact inv.uniq w1 w2 x h1 h2
    · intro w1 x hx
      by_cases e1 : w1 = w
      · subst e1; rw [Function.update_same, holds_done] at hx; subst hx
        exact ⟨(inv.holdProc w1 e hw).1, hev⟩
      · rw [Function.update_noteq e1] at hx
        exact inv.holdProc w1 x hx
    · intro w1 x hx
      by_cases e1 : w1 = w
      · subst e1; rw [Function.update_same] at hx
        have hxe : x = e := by
          rcases hx with h | h | h <;>
            first
            | (rw [WPC.done.injEq] at h; exact h.symm)
            | cases h
        subst hxe
        exact inv.deqOut w1 x (Or.inr (Or.inl hpc))
      · rw [Function.update_noteq e1] at hx
        exact inv.deqOut w1 x hx
    · intro x
      by_cases hxe : x = e
      · subst hxe; rw [Function.update_same, hdc0]
      · rw [Function.update_noteq hxe]; exact inv.dcLe x
    · intro x hx
      by_cases hxe : x = e
      · subst hxe
        refine ⟨inv.deqOut w x (Or.inr (Or.inl hpc)), ?_⟩
        intro w1
        by_cases e1 : w1 = w
        · subst e1; rw [Function.update_same]; exact ⟨by simp, by simp, by simp⟩
        · rw [Function.update_noteq e1]
          refine ⟨?_, ?_, ?_⟩
          · intro h
            exact e1 (inv.uniq w1 w x (Or.inl h) hw)
          · intro h
            exact e1 (inv.uniq w1 w x (Or.inr (Or.inl h)) hw)
          · intro h
            exact e1 (inv.uniq w1 w x (Or.inr (Or.inr (Or.inl h))) hw)
      · rw [Function.update_noteq hxe] at hx
        obtain ⟨h1, h2⟩ := inv.dcOne x hx
        refine ⟨h1, ?_⟩
        intro w1
        by_cases e1 : w1 = w
        · subst e1; rw [Function.update_same]; exact ⟨by simp, by simp, by simp⟩
        · rw [Function.update_noteq e1]; exact h2 w1
    · intro x hx
      have hxe : x ≠ e := fun h => hx (h ▸ hev)
      obtain ⟨h1, h2, h3⟩ := inv.fresh x hx
      refine ⟨by rw [Function.update_noteq hxe]; exact h1, h2, ?_⟩
      intro w1
      by_cases e1 : w1 = w
      · subst e1; rw [Function.update_same, holds_done]
        exact fun h => hxe h.symm
      · rw [Function.update_noteq e1]; exact h3 w1
  | fpFault w e hpc =>
    have hw : holds (s.pc w) e := Or.inr (Or.inr (Or.inl hpc))
    have hev : e ∈ s.everQueued := (inv.holdProc w e hw).2
    refine ⟨inv.qSub, inv.nodup, ?_, ?_, ?_, inv.dcLe, ?_, ?_⟩ <;> (try dsimp only)
    · intro w1 w2 x h1 h2
      by_cases e1 : w1 = w <;> by_cases e2 : w2 = w
      · rw [e1, e2]
      · subst e1
        rw [Function.update_same, holds_done] at h1; subst h1
        rw [Function.update_noteq e2] at h2
        exact absurd (inv.uniq w2 w1 e h2 hw) e2
      · subst e2
        rw [Function.update_same, holds_done] at h2; subst h2
        rw [Function.update_noteq e1] at h1
        exact absurd (inv.uniq w1 w2 e h1 hw) e1
      · rw [Function.update_noteq e1] at h1
        rw [Function.update_noteq e2] at h2
        exact inv.uniq w1 w2 x h1 h2
    · intro w1 x hx
      by_cases e1 : w1 = w
      · subst e1; rw [Function.update_same, holds_done] at hx; subst hx
        exact ⟨(inv.holdProc w1 e hw).1, hev⟩
      · rw [Function.update_noteq e1] at hx
        exact inv.holdProc w1 x hx
    · intro w1 x hx
      by_cases e1 : w1 = w
      · subst e1; rw [Function.update_same] at hx
        have hxe : x = e := by
          rcases hx with h | h | h <;>
            first
            | (rw [WPC.done.injEq] at h; exact h.symm)
            | cases h
        subst hxe
        exact inv.deqOut w1 x (Or.inr (Or.inl hpc))
      · rw [Function.update_noteq e1] at hx
        exact inv.deqOut w1 x hx
    · intro x hx
      obtain ⟨h1, h2⟩ := inv.dcOne x hx
      refine ⟨h1, ?_⟩
      intro w1
      by_cases e1 : w1 = w
      · subst e1; rw [Function.update_same]; exact ⟨by simp, by simp, by simp⟩
      · rw [Function.update_noteq e1]; exact h2 w1
    · intro x hx
      have hxe : x ≠ e := fun h => hx (h ▸ hev)
      obtain ⟨h1, h2, h3⟩ := inv.fresh x hx
      refine ⟨h1, h2, ?_⟩
      intro w1
      by_cases e1 : w1 = w
      · subst e1; rw [Function.update_same, holds_done]
        exact fun h => hxe h.symm
      · rw [Function.update_noteq e1]; exact h3 w1
  | finish w e hpc =>
    have hw : holds (s.pc w) e := Or.inr (Or.inr (Or.inr hpc))
    have hev : e ∈ s.everQueued := (inv.holdProc w e hw).2
    refine ⟨inv.qSub, inv.nodup, ?_, ?_, ?_, inv.dcLe, ?_, ?_⟩ <;> (try dsimp only)
    · intro w1 w2 x h1 h2
      by_cases e1 : w1 = w
      · subst e1; rw [Function.update_same] at h1; exact absurd h1 (holds_top x)
      · by_cases e2 : w2 = w
        · subst e2; rw [Function.update_same] at h2; exact absurd h2 (holds_top x)
        · rw [Function.update_noteq e1] at h1
          rw [Function.update_noteq e2] at h2
          exact inv.uniq w1 w2 x h1 h2
    · intro w1 x hx
      by_cases e1 : w1 = w
      · subst e1; rw [Function.update_same] at hx; exact absurd hx (holds_top x)
      · rw [Function.update_noteq e1] at hx
        obtain ⟨h1, h2⟩ := inv.holdProc w1 x hx
        have hxe : x ≠ e := by
          intro h; subst h
          exact e1 (inv.uniq w1 w x hx hw)
        exact ⟨by rw [Function.update_noteq hxe]; exact h1, h2⟩
    · intro w1 x hx
      by_cases e1 : w1 = w
      · subst e1; rw [Function.update_same] at hx
        rcases hx with h | h | h <;> cases h
      · rw [Function.update_noteq e1] at hx
        exact inv.deqOut w1 x hx
    · intro x hx
      obtain ⟨h1, h2⟩ := inv.dcOne x hx
      refine ⟨h1, ?_⟩
      intro w1
      by_cases e1 : w1 = w
      · subst e1; rw [Function.update_same]; exact ⟨by simp, by simp, by simp⟩
      · rw [Function.update_noteq e1]; exact h2 w1
    · intro x hx
      have hxe : x ≠ e := fun h => hx (h ▸ hev)
      obtain ⟨h1, h2, h3⟩ := inv.fresh x hx
      refine ⟨h1, by rw [Function.update_noteq hxe]; exact h2, ?_⟩
      intro w1
      by_cases e1 : w1 = w
      · subst e1; rw [Function.update_same]; exact holds_top x
      · rw [Function.update_noteq e1]; exact h3 w1

/-- Every reachable state of the concurrent model satisfies the invariant. -/
theorem reach_inv {s : GState} (h : Reach s) : Inv s := by
  induction h with
  | init wp tg fp => exact inv_init wp tg fp
  | step _ hs ih => exact inv_step ih hs

/-- The concurrent model is not vacuous: a full
enqueue-claim-dequeue-execute-dispatch run of one worker is reachable and ends
with the dispatcher having been called exactly once for the entry. -/
theorem reach_dispatch_example :
    ∃ s : GState, Reach s ∧ s.dispCount 0 = 1 := by
  refine ⟨_, Reach.step (Reach.step (Reach.step (Reach.step (Reach.step
      (Reach.init (fun _ => .EboxU0) (fun _ => .EboxU0) true)
    (GStep.enqueue _ 0 .EboxU0 (by simp [initG])))
    (GStep.claim _ 0 0 (by decide) (by simp [initG]) (by decide) (by decide)))
    (GStep.dequeue _ 0 0 (by decide) (by decide)))
    (GStep.setExec _ 0 0 (by decide)))
    (GStep.dispatch _ 0 0 (by decide) (by decide)), by decide⟩

/-!
## Helper lemmas about the sequential model
-/

theorem getD_set_self {α : Type _} (l : List α) (n : Nat) (a d : α)
    (h : n < l.length) : (l.set n a).getD n d = a := by
  simp [List.getD, List.getElem?_set_self', List.getElem?_eq_getElem h]

/-- An index returned by the scan is a queue member and points at an unclaimed,
eligible entry. -/
theorem scanClaim_spec (pl : AXP_PIPELINE) (es : List AXP_QUEUE_ENTRY) :
    ∀ q i, scanClaim pl es q = some i →
      i ∈ q ∧ ∃ e, es.get? i = some e ∧ e.processing = false ∧
        eligible pl e.pipeline = true := by
  intro q
  induction q with
  | nil => intro i h; simp [scanClaim] at h
  | cons j rest ih =>
    intro i h
    cases hg : es.get? j with
    | none =>
      simp only [scanClaim, hg] at h
      obtain ⟨h1, h2⟩ := ih i h
      exact ⟨List.mem_cons_of_mem _ h1, h2⟩
    | some e =>
      simp only [scanClaim, hg] at h
      split at h
      · next hc =>
        injection h with h
        subst h
        simp only [Bool.and_eq_true, decide_eq_true_eq] at hc
        exact ⟨List.mem_cons_self _ _, e, hg, hc.2, hc.1⟩
      · next hc =>
        obtain ⟨h1, h2⟩ := ih i h
        exact ⟨List.mem_cons_of_mem _ h1, h2⟩

theorem getEntry_setProcessing (cpu : CPU) (i : Nat) (b : Bool)
    (h : i < cpu.entries.length) :
    getEntry { cpu with entries := setProcessingL cpu.entries i b } i =
      { getEntry cpu i with processing := b } := by
  simp [getEntry, setProcessingL]
  rw [List.getElem?_set_eq_of_lt _ h]
  simp [List.getD, getEntry]

/-- The register-stall path of lines 311-315, as one equation: the only change
is that `processing` is cleared, and the trace shows no dequeue, no return and
no ROB write. -/
theorem processClaimed_regstall (pl : AXP_PIPELINE) (cpu : CPU) (i : Nat)
    (rc : Nat → Bool)
    (hA : (getInstr cpu (getEntry cpu i).ins).state ≠ .Aborted)
    (hr : rc i = false) :
    processClaimed pl cpu i rc =
      ({ cpu with entries := setProcessingL cpu.entries i false },
       [Event.lockROB,
        Event.readState (getEntry cpu i).ins
          (getInstr cpu (getEntry cpu i).ins).state,
        Event.unlockROB, Event.regCheck i false,
        Event.setProcessing i false]) := by
  simp [processClaimed, hA, hr]

/-- A successful `waitLoop` pass entered with `notMe = true` waited at least
once: its trace starts with `condWait`. -/
theorem waitLoop_notMe_condWait (cpu : CPU) (wakes : List CPU) (c : CPU)
    (tr : List Event) (h : waitLoop cpu true wakes = some (c, tr)) :
    ∃ tr', tr = Event.condWait :: tr' := by
  rw [waitLoop.eq_def] at h
  simp only [Bool.or_true, if_true] at h
  cases wakes with
  | nil => cases h
  | cons c1 rest =>
    dsimp only at h
    cases hw : waitLoop c1 false rest with
    | none => rw [hw] at h; cases h
    | some p =>
      rw [hw] at h
      cases h
      exact ⟨p.2, rfl⟩

/-- An iteration entered with `notMe = true` locks and then waits before doing
anything else. -/
theorem iterate_notMe_shape (pl : AXP_PIPELINE) (cpu : CPU) (env : IterEnv)
    (c : CPU) (nm : Bool) (tr : List Event)
    (h : iterate pl cpu true env = some (c, nm, tr)) :
    ∃ tr', tr = Event.lockPipeline :: Event.condWait :: tr' := by
  rw [iterate] at h
  cases hw : waitLoop cpu true env.wakes with
  | none => rw [hw] at h; cases h
  | some p =>
    obtain ⟨p1, p2⟩ := p
    rw [hw] at h
    obtain ⟨trW, htrW⟩ := waitLoop_notMe_condWait cpu env.wakes p1 p2 hw
    subst htrW
    dsimp only at h
    split at h
    · cases h
      exact ⟨trW, rfl⟩
    · cases hsc : scanClaim pl p1.entries p1.queue with
      | none =>
        rw [hsc] at h
        dsimp only at h
        cases h
        exact ⟨trW ++ [Event.scanStart, Event.unlockPipeline], by simp⟩
      | some i =>
        rw [hsc] at h
        dsimp only at h
        cases h
        exact ⟨trW ++ ([Event.scanStart, Event.claim i, Event.setProcessing i true,
          Event.unlockPipeline] ++
          (processClaimed pl { p1 with entries := setProcessingL p1.entries i true }
            i env.regCheck).2), by simp⟩


/-!
## The claims
-/

/-- **C1** (code bug).  On the abort path (lines 292-304) the worker removes the
claimed entry, clears `processing` and does not dispatch — but it returns the
entry through a direct call of `AXP_ReturnIQEntry` (line 302) instead of the
`returnEntry` callback supplied to `AXP_Execution_Box`, although the function
header documents `returnEntry` as "the function to return the dequeued entry
back to the pool" and the function is shared by the Ebox and the Fbox, whose
return functions differ.  Here an `FboxMul` worker observes `Aborted`: the
trace ends in `returnIQ` and contains no `returnFn` and no `dispatch`. -/
theorem C1_abort_path_returns_via_AXP_ReturnIQEntry :
    iterate .FboxMul cpuAbort false envTrue =
      some (⟨.Running, [], [⟨.FboxMul, false, 0⟩], [⟨.Aborted, .NoException⟩],
             true⟩, false, trAbort) ∧
    Event.returnIQ 0 ∈ trAbort ∧ Event.returnFn 0 ∉ trAbort ∧
    Event.dispatch 0 ∉ trAbort ∧ Event.removeQueue 0 ∈ trAbort ∧
    Event.setProcessing 0 false ∈ trAbort := by decide

/-- **C2** (code bug).  The abort path calls `AXP_RemoveCountedQueue` at line
300 after the pipeline mutex was released at line 282 and before any relock, so
that removal mutates the shared queue without the matching mutex — while the
normal dequeue path (lines 333-335) performs the same removal with the mutex
held.  The first conjunct evaluates the abort-path iteration and finds a
`removeQueue` event outside the mutex; the second shows the dispatch-path
removal is correctly protected. -/
theorem C2_abort_path_remove_without_pipeline_mutex :
    (iterate .FboxMul cpuAbort false envTrue).map
        (fun r => removesUnderMutex r.2.2 false) = some false ∧
    (iterate .EboxU0 cpuStall false envTrue).map
        (fun r => removesUnderMutex r.2.2 false) = some true := by decide

/-- **C3** (counterexample).  After `regCheckEntry` returns false the worker
does NOT wait for a fresh signal: the claim is false on the code.  The
register-stall iteration on `cpuStall` returns the state and `notMe` unchanged
(`cpuStall`, `false`), and its trace — which is also the trace of the
immediately following iteration — begins with the scan (`lockPipeline`,
`scanStart`) and contains no `condWait`: the entry is still linked, so the
queue is non-empty, and `notMe` is false, so the wait predicate of lines
152-154 is false and the worker rescans at once. -/
theorem C3_counterexample_rescans_without_wait :
    iterate .EboxU0 cpuStall false envFalse = some (cpuStall, false, trStall) ∧
    Event.regCheck 0 false ∈ trStall ∧ Event.condWait ∉ trStall ∧
    trStall.take 2 = [Event.lockPipeline, Event.scanStart] := by decide

/-- **C3** (amended).  After `reg_check_fn` returns false for a claimed entry,
the worker clears `processing` and immediately begins its next queue scan
without waiting on the condition variable: the entry remains linked, so the
queue is non-empty, and `notMe` is false, so the wait predicate of lines
152-154 fails; the worker waits again only when the queue is empty or a scan
claims nothing. -/
theorem C3_reg_stall_rescans_immediately (pl : AXP_PIPELINE) (cpu : CPU)
    (env : IterEnv) (i : Nat)
    (hrun : cpu.cpuState ≠ CpuRunState.ShuttingDown)
    (hscan : scanClaim pl cpu.entries cpu.queue = some i)
    (hab : (getInstr cpu (getEntry cpu i).ins).state ≠ .Aborted)
    (hreg : env.regCheck i = false) :
    ∃ cpu' tr, iterate pl cpu false env = some (cpu', false, tr) ∧
      cpu'.queue = cpu.queue ∧ cpu'.cpuState = cpu.cpuState ∧
      Event.condWait ∉ tr ∧
      ∀ env', ∃ cpu'' nm tr', iterate pl cpu' false env' = some (cpu'', nm, tr') ∧
        tr'.take 2 = [Event.lockPipeline, Event.scanStart] := by
  obtain ⟨hmem, e, hget, hproc, helig⟩ := scanClaim_spec pl cpu.entries cpu.queue i hscan
  have hlen : i < cpu.entries.length := by
    rcases List.get?_eq_some.mp hget with ⟨hlt, _⟩
    exact hlt
  have hne : cpu.queue.isEmpty = false := by
    cases hq : cpu.queue with
    | nil => rw [hq] at hmem; cases hmem
    | cons a l => simp
  have hwl : waitLoop cpu false env.wakes = some (cpu, []) := by
    rw [waitLoop.eq_def]
    simp [hne, hrun]
  have hgb := getEntry_setProcessing cpu i true hlen
  have hab2 : (getInstr { cpu with entries := setProcessingL cpu.entries i true }
      (getEntry { cpu with entries := setProcessingL cpu.entries i true } i).ins).state ≠
      AXP_INS_STATE.Aborted := by
    rw [hgb]
    exact hab
  have hps := processClaimed_regstall pl
    { cpu with entries := setProcessingL cpu.entries i true } i env.regCheck hab2 hreg
  have hiter : iterate pl cpu false env =
      some ({ cpu with entries := setProcessingL (setProcessingL cpu.entries i true) i false },
            false,
            [Event.lockPipeline, Event.scanStart, Event.claim i,
             Event.setProcessing i true, Event.unlockPipeline, Event.lockROB,
             Event.readState (getEntry cpu i).ins
               (getInstr cpu (getEntry cpu i).ins).state,
             Event.unlockROB, Event.regCheck i false,
             Event.setProcessing i false]) := by
    simp only [iterate, hwl]
    rw [if_neg hrun]
    simp only [hscan, hps, hgb]
    simp [getInstr]
  refine ⟨_, _, hiter, rfl, rfl, by simp, ?_⟩
  intro env'
  have hwl' : waitLoop
      { cpu with entries := setProcessingL (setProcessingL cpu.entries i true) i false }
      false env'.wakes =
      some ({ cpu with entries := setProcessingL (setProcessingL cpu.entries i true) i false }, []) := by
    rw [waitLoop.eq_def]
    simp [hne, hrun]
  simp only [iterate, hwl']
  rw [if_neg hrun]
  cases hsc : scanClaim pl (setProcessingL (setProcessingL cpu.entries i true) i false)
      cpu.queue with
  | none => exact ⟨_, _, _, rfl, rfl⟩
  | some j => exact ⟨_, _, _, rfl, rfl⟩

/-- Witness for C3 (amended): the register-stall scenario `cpuStall` with a
failing register check satisfies every hypothesis. -/
theorem C3_reg_stall_rescans_immediately_witness :
    ∃ cpu' tr, iterate .EboxU0 cpuStall false envFalse = some (cpu', false, tr) ∧
      cpu'.queue = cpuStall.queue ∧ cpu'.cpuState = cpuStall.cpuState ∧
      Event.condWait ∉ tr ∧
      ∀ env', ∃ cpu'' nm tr', iterate .EboxU0 cpu' false env' = some (cpu'', nm, tr') ∧
        tr'.take 2 = [Event.lockPipeline, Event.scanStart] :=
  C3_reg_stall_rescans_immediately .EboxU0 cpuStall envFalse 0
    (by decide) (by decide) (by decide) (by decide)

/-- **C4** (confirmed).  The eligibility test derived from `pipeCond` accepts,
for each worker identity, exactly the tags in the compatibility row that the
claim lists (`specRow`), and the scan claims an entry only when that test
passes (entries outside the row are skipped). -/
theorem C4_scan_claims_only_compatible_rows :
    (∀ pl ∈ workerPipelines, ∀ t, eligible pl t = true ↔ t ∈ specRow pl) ∧
    (∀ pl es q i, scanClaim pl es q = some i →
        ∃ e, es.get? i = some e ∧ e.processing = false ∧
          eligible pl e.pipeline = true) := by
  constructor
  · intro pl hpl t
    fin_cases hpl <;> cases t <;> simp [eligible, specRow, pipeCond]
  · intro pl es q i h
    exact (scanClaim_spec pl es q i h).2

/-- Witness for C4: row membership for the U0 worker and a concrete claimed
scan. -/
theorem C4_scan_claims_only_compatible_rows_witness :
    (eligible .EboxU0 .EboxL0L1U0U1 = true ↔
      AXP_PIPELINE.EboxL0L1U0U1 ∈ specRow .EboxU0) ∧
    (∃ e, [(⟨.EboxU0, false, 0⟩ : AXP_QUEUE_ENTRY)].get? 0 = some e ∧
      e.processing = false ∧ eligible .EboxU0 e.pipeline = true) :=
  ⟨C4_scan_claims_only_compatible_rows.1 .EboxU0 (by decide) .EboxL0L1U0U1,
   C4_scan_claims_only_compatible_rows.2 .EboxU0 [⟨.EboxU0, false, 0⟩] [0] 0
     (by decide)⟩

/-- **C5** (confirmed).  For a claimed, non-aborted entry whose register check
succeeds: a floating-point worker (`FboxMul`/`FboxOther`) that reads `fpe = 0`
(under the IPR mutex) never dispatches and instead records
`FloatingDisabledFault` and `WaitingRetirement` under the ROB mutex; with
`fpe = 1` it dispatches; the four integer workers treat fp-enable as true and
always dispatch. -/
theorem C5_fp_enable_gating (pl : AXP_PIPELINE) (cpu : CPU) (i : Nat)
    (rc : Nat → Bool)
    (hA : (getInstr cpu (getEntry cpu i).ins).state ≠ .Aborted)
    (hr : rc i = true)
    (hlen : (getEntry cpu i).ins < cpu.instrs.length) :
    ((pl = .FboxMul ∨ pl = .FboxOther) → cpu.fpe = false →
        hasDispatch (processClaimed pl cpu i rc).2 = false ∧
        Event.readFpe false ∈ (processClaimed pl cpu i rc).2 ∧
        fpeReadsUnderMutex (processClaimed pl cpu i rc).2 false = true ∧
        robWritesUnderMutex (processClaimed pl cpu i rc).2 false = true ∧
        (getInstr (processClaimed pl cpu i rc).1 (getEntry cpu i).ins).excRegMask =
          .FloatingDisabledFault ∧
        (getInstr (processClaimed pl cpu i rc).1 (getEntry cpu i).ins).state =
          .WaitingRetirement) ∧
    ((pl = .FboxMul ∨ pl = .FboxOther) → cpu.fpe = true →
        Event.dispatch (getEntry cpu i).ins ∈ (processClaimed pl cpu i rc).2 ∧
        Event.readFpe true ∈ (processClaimed pl cpu i rc).2) ∧
    ((pl = .EboxU0 ∨ pl = .EboxU1 ∨ pl = .EboxL0 ∨ pl = .EboxL1) →
        Event.dispatch (getEntry cpu i).ins ∈ (processClaimed pl cpu i rc).2) := by
  have hrc : ¬ (rc i = false) := by simp [hr]
  have hA' : ¬ ((cpu.instrs[(getEntry cpu i).ins]?.getD defaultInstr).state =
      AXP_INS_STATE.Aborted) := by simpa [getInstr, List.getD] using hA
  have hA2 : ¬ (cpu.instrs[(getEntry cpu i).ins].state = AXP_INS_STATE.Aborted) := by
    simpa [getInstr, List.getD, List.getElem?_eq_getElem hlen] using hA
  refine ⟨?_, ?_, ?_⟩
  · intro hfp hfe
    refine ⟨?_, ?_, ?_, ?_, ?_, ?_⟩ <;>
      simp [processClaimed, hA, hA', hA2, hrc, hfp, hfe, hasDispatch,
            fpeReadsUnderMutex, robWritesUnderMutex, getInstr, setInstr,
            List.set_set, List.getD, List.getElem?_set_eq_of_lt, hlen]
  · intro hfp hfe
    constructor <;> simp [processClaimed, hA, hA', hrc, hfp, hfe, setInstr]
  · intro hint
    have hfp : ¬ (pl = .FboxMul ∨ pl = .FboxOther) := by
      rcases hint with h | h | h | h <;> subst h <;> simp
    simp [processClaimed, hA, hA', hrc, hfp, setInstr]

/-- Witness for C5: the `FboxOther` worker with `fpe = 0` faults instead of
dispatching, and the `EboxU0` worker dispatches. -/
theorem C5_fp_enable_gating_witness :
    hasDispatch (processClaimed .FboxOther cpuFpOff 0 (fun _ => true)).2 = false ∧
    Event.readFpe false ∈ (processClaimed .FboxOther cpuFpOff 0 (fun _ => true)).2 ∧
    (getInstr (processClaimed .FboxOther cpuFpOff 0 (fun _ => true)).1 0).excRegMask =
      .FloatingDisabledFault ∧
    (getInstr (processClaimed .FboxOther cpuFpOff 0 (fun _ => true)).1 0).state =
      .WaitingRetirement ∧
    Event.dispatch 0 ∈ (processClaimed .EboxU0 cpuStall 0 (fun _ => true)).2 := by
  have hfo := C5_fp_enable_gating .FboxOther cpuFpOff 0 (fun _ => true)
    (by decide) rfl (by decide)
  have hu0 := C5_fp_enable_gating .EboxU0 cpuStall 0 (fun _ => true)
    (by decide) rfl (by decide)
  obtain ⟨a, b, _, _, d, f⟩ := hfo.1 (Or.inr rfl) rfl
  exact ⟨a, b, d, f, hu0.2.2 (Or.inl rfl)⟩

/-- **C6** (confirmed).  When the register check fails for a claimed entry the
worker clears only the `processing` flag: the queue, the ROB slots (state and
`excRegMask`) are unchanged, the trace shows no `removeQueue`, no return call
and no ROB write, so the entry stays linked and claimable. -/
theorem C6_reg_stall_clears_processing_only (pl : AXP_PIPELINE) (cpu : CPU)
    (i : Nat) (rc : Nat → Bool)
    (hA : (getInstr cpu (getEntry cpu i).ins).state ≠ .Aborted)
    (hr : rc i = false) :
    processClaimed pl cpu i rc =
      ({ cpu with entries := setProcessingL cpu.entries i false },
       [Event.lockROB,
        Event.readState (getEntry cpu i).ins
          (getInstr cpu (getEntry cpu i).ins).state,
        Event.unlockROB, Event.regCheck i false,
        Event.setProcessing i false]) ∧
    (processClaimed pl cpu i rc).1.queue = cpu.queue ∧
    (processClaimed pl cpu i rc).1.instrs = cpu.instrs := by
  have h := processClaimed_regstall pl cpu i rc hA hr
  exact ⟨h, by rw [h], by rw [h]⟩

/-- Witness for C6: the register-stall scenario `cpuStall`. -/
theorem C6_reg_stall_clears_processing_only_witness :
    processClaimed .EboxU0 cpuStall 0 (fun _ => false) =
      ({ cpuStall with entries := setProcessingL cpuStall.entries 0 false },
       [Event.lockROB, Event.readState 0 .Queued, Event.unlockROB,
        Event.regCheck 0 false, Event.setProcessing 0 false]) ∧
    (processClaimed .EboxU0 cpuStall 0 (fun _ => false)).1.queue = cpuStall.queue ∧
    (processClaimed .EboxU0 cpuStall 0 (fun _ => false)).1.instrs = cpuStall.instrs :=
  C6_reg_stall_clears_processing_only .EboxU0 cpuStall 0 (fun _ => false)
    (by decide) rfl

/-- **C7** (confirmed).  In the processing of a claimed entry, a
`setState _ Executing` write occurs only after the `removeQueue` of that entry
(lines 333-342), and when it occurs the entry is no longer in the queue of the
resulting state (nothing in the iteration re-enqueues it). -/
theorem C7_executing_set_only_after_dequeue (pl : AXP_PIPELINE) (cpu : CPU)
    (i : Nat) (rc : Nat → Bool) (hnd : cpu.queue.Nodup) :
    onlyAfter (Event.setState (getEntry cpu i).ins .Executing)
        (Event.removeQueue i) (processClaimed pl cpu i rc).2 = true ∧
    (Event.setState (getEntry cpu i).ins .Executing ∈ (processClaimed pl cpu i rc).2 →
      i ∉ (processClaimed pl cpu i rc).1.queue) := by
  by_cases hab : (getInstr cpu (getEntry cpu i).ins).state = .Aborted
  · constructor
    · simp [processClaimed, hab, onlyAfter]
    · simp [processClaimed, hab]
  · by_cases hrc : rc i = false
    · constructor
      · simp [processClaimed, hab, hrc, onlyAfter]
      · simp [processClaimed, hab, hrc]
    · by_cases hfp : pl = .FboxMul ∨ pl = .FboxOther
      · by_cases hfe : cpu.fpe
        · constructor
          · simp [processClaimed, hab, hrc, hfp, hfe, onlyAfter]
          · intro _
            simp [processClaimed, hab, hrc, hfp, hfe, setInstr]
            exact hnd.not_mem_erase
        · constructor
          · simp [processClaimed, hab, hrc, hfp, hfe, onlyAfter]
          · intro _
            simp [processClaimed, hab, hrc, hfp, hfe, setInstr]
            exact hnd.not_mem_erase
      · constructor
        · simp [processClaimed, hab, hrc, hfp, onlyAfter]
        · intro _
          simp [processClaimed, hab, hrc, hfp, setInstr]
          exact hnd.not_mem_erase

/-- Witness for C7: the dispatch path on `cpuStall`. -/
theorem C7_executing_set_only_after_dequeue_witness :
    onlyAfter (Event.setState 0 .Executing) (Event.removeQueue 0)
      (processClaimed .EboxU0 cpuStall 0 (fun _ => true)).2 = true ∧
    0 ∉ (processClaimed .EboxU0 cpuStall 0 (fun _ => true)).1.queue := by
  have h := C7_executing_set_only_after_dequeue .EboxU0 cpuStall 0
    (fun _ => true) (by decide)
  exact ⟨h.1, h.2 (by decide)⟩

/-- **C8** (confirmed).  In every reachable state of the concurrent model —
any number of workers running the loop body against the shared queue, with the
producer enqueueing fresh entries and the ROB aborting at will — the dispatcher
has been invoked at most once for every entry; the claim-step of the model is
exactly the mutex-protected test-and-set of the `processing` flag (lines
241-245), which is what excludes a second claimant. -/
theorem C8_dispatcher_at_most_once (s : GState) (e : Nat) (h : Reach s) :
    s.dispCount e ≤ 1 :=
  (reach_inv h).dcLe e

/-- Witness for C8: the initial state is reachable. -/
theorem C8_dispatcher_at_most_once_witness :
    (initG (fun _ => .EboxU0) (fun _ => .EboxU0) true).dispCount 0 ≤ 1 :=
  C8_dispatcher_at_most_once _ 0
    (Reach.init (fun _ => .EboxU0) (fun _ => .EboxU0) true)

/-- **C9** (code bug).  The unconditional `pthread_mutex_unlock` at line 415 is
balanced only on the exit path that observes shutdown at line 172 right after a
wake (third conjunct).  When `cpuState` is already `ShuttingDown` on entry the
mutex was never locked (first conjunct), and when shutdown is observed by the
outer loop test after an iteration that ended on the abort path (second
conjunct), the register-stall path (third conjunct) or the dispatch path
(fourth conjunct), the mutex was already released inside the iteration: in all
those cases line 415 unlocks a mutex the worker does not hold. -/
theorem C9_final_unlock_unbalanced :
    (runLoop .EboxU0 cpuShut true []).map (fun r => finalUnlockBalanced r.2) =
      some false ∧
    (runLoop .FboxMul cpuAbort false [envAbortShutdown]).map
        (fun r => finalUnlockBalanced r.2) = some false ∧
    (runLoop .EboxU0 cpuStall false [envStallShutdown]).map
        (fun r => finalUnlockBalanced r.2) = some false ∧
    (runLoop .EboxU0 cpuStall false [envAbortShutdown]).map
        (fun r => finalUnlockBalanced r.2) = some false ∧
    (runLoop .EboxU0 cpuIdle true [envWakeShut]).map
        (fun r => finalUnlockBalanced r.2) = some true := by decide

/-- **C10** (confirmed).  Because `notMe` is initialised to `true` (line 133),
every run of `AXP_Execution_Box` waits on the condition variable before its
first queue scan: every `scanStart` in the trace is preceded by a `condWait`
(first conjunct); and if the CPU is not shutting down but no signal arrives
after the wait begins — signals sent before the wait are lost — the worker
stays blocked even when the queue is already non-empty (second conjunct). -/
theorem C10_first_scan_preceded_by_wait :
    (∀ pl cpu envs c tr, runLoop pl cpu true envs = some (c, tr) →
        onlyAfter Event.scanStart Event.condWait tr = true) ∧
    (∀ pl cpu env rest, cpu.cpuState ≠ CpuRunState.ShuttingDown → env.wakes = [] →
        runLoop pl cpu true (env :: rest) = none) := by
  constructor
  · intro pl cpu envs c tr h
    by_cases hsd : cpu.cpuState = CpuRunState.ShuttingDown
    · cases envs with
      | nil =>
        rw [runLoop, if_pos hsd] at h
        cases h
        simp [onlyAfter]
      | cons env rest =>
        rw [runLoop, if_pos hsd] at h
        cases h
        simp [onlyAfter]
    · cases envs with
      | nil =>
        rw [runLoop, if_neg hsd] at h
        cases h
      | cons env rest =>
        rw [runLoop, if_neg hsd] at h
        cases hit : iterate pl cpu true env with
        | none => rw [hit] at h; cases h
        | some trip =>
          obtain ⟨c2, nm2, trI⟩ := trip
          rw [hit] at h
          obtain ⟨tr', htr'⟩ := iterate_notMe_shape pl cpu env c2 nm2 trI hit
          dsimp only at h
          cases hrest : runLoop pl
              { c2 with cpuState :=
                  if env.postShutdown then CpuRunState.ShuttingDown else c2.cpuState }
              nm2 rest with
          | none => rw [hrest] at h; cases h
          | some q =>
            obtain ⟨c3, tr2⟩ := q
            rw [hrest] at h
            cases h
            subst htr'
            simp [onlyAfter]
  · intro pl cpu env rest hsd hw
    have hit : iterate pl cpu true env = none := by
      rw [iterate, hw, waitLoop.eq_def]
      simp
    rw [runLoop, if_neg hsd, hit]

/-- Witness for C10: a wake that observes shutdown gives trace
`[lock, condWait, unlock]`; with no wake the worker blocks on a non-empty
queue. -/
theorem C10_first_scan_preceded_by_wait_witness :
    onlyAfter Event.scanStart Event.condWait
      [Event.lockPipeline, Event.condWait, Event.unlockPipeline] = true ∧
    runLoop .EboxU0 cpuStall true [envFalse] = none :=
  ⟨C10_first_scan_preceded_by_wait.1 .EboxU0 cpuIdle [envWakeShut] cpuShut
      [Event.lockPipeline, Event.condWait, Event.unlockPipeline] (by decide),
   C10_first_scan_preceded_by_wait.2 .EboxU0 cpuStall envFalse [] (by decide)
     (by decide)⟩

end DECaxp

